import Mathlib

/-!
# Verification of the WSOL/CAM heads in `wsmol/resnet.py`

Shallow embedding of the CAM-computation paths of
`src/wsmol/resnet.py`.  Tensors are total functions on natural-number
indices with explicit size parameters; entry values are rationals.
PyTorch `view`/reshape is modelled as flat-index arithmetic on a
row-major layout, `.mean(d)` as a `Finset.range` sum divided by the
size of dimension `d`, and `.detach().clone()`, `.cuda()`, `.to(...)`
as the identity on values.  The convolutional backbones themselves are
out of scope: each embedded operation takes the relevant feature map
as an input.
-/

namespace Wsmol

/-- Four-dimensional tensors (batch, channel, height, width) as total
functions on natural-number indices; entries outside the declared
sizes never influence any statement below. -/
abbrev Tensor4 : Type := ℕ → ℕ → ℕ → ℕ → ℚ

/-- Classifier weight matrices of shape `(num_classes, channels)`. -/
abbrev Weight : Type := ℕ → ℕ → ℚ

/-! ## `ResNetCam.forward`, multi-class CAM branch (lines 109-114) -/

/-- Line 112, `cam_weights = self.fc.weight[labels]`: integer-tensor
indexing selects weight row `labels b` for each sample `b`. -/
def camWeightsSel (Wt : Weight) (labels : ℕ → ℕ) : ℕ → ℕ → ℚ :=
  fun b c => Wt (labels b) c

/-- Lines 113-114,
`cams = (cam_weights.view(*feature_map.shape[:2], 1, 1) * feature_map).mean(1)`:
the `view` to `(B, C, 1, 1)` is an identity reshape of the `(B, C)`
selection, broadcasting multiplies channel-wise, and `mean(1)` averages
over the `C` channels. -/
def camMultiClass (C : ℕ) (Wt : Weight) (F : Tensor4) (labels : ℕ → ℕ) :
    ℕ → ℕ → ℕ → ℚ :=
  fun b h w => (∑ c ∈ Finset.range C, camWeightsSel Wt labels b c * F b c h w) / (C : ℚ)

/-! ## `ResNetCam.forward`, multi-label CAM branch (lines 115-125) -/

/-- Line 119, `label_masks = labels.repeat_interleave(c, dim=0)`: row `r`
of the `(B*K, K)` result is row `r / K` of the `(B, K)` label matrix. -/
def repeatInterleave (K : ℕ) (labels : ℕ → ℕ → ℚ) : ℕ → ℕ → ℚ :=
  fun r k => labels (r / K) k

/-- Line 120, `I = torch.eye(c).repeat((b, 1))`: vertical tiling of the
identity, so row `r` is the standard basis row with the one at `r % K`. -/
def eyeRepeat (K : ℕ) : ℕ → ℕ → ℚ :=
  fun r k => if r % K = k then 1 else 0

/-- Line 121, `label_masks = label_masks * I.cuda()` (elementwise;
`.cuda()` is the identity on values). -/
def labelMasks (K : ℕ) (labels : ℕ → ℕ → ℚ) : ℕ → ℕ → ℚ :=
  fun r k => repeatInterleave K labels r k * eyeRepeat K r k

/-- Lines 122-123,
`cam_weights = label_masks.view(b, -1, c).to(...) @ self.fc.weight`:
the view reinterprets row `i*K + j` of the `(B*K, K)` mask as entry
`(i, j)` of a `(B, K, K)` tensor, and the batched matrix product with
the `(K, C)` weight contracts the trailing index. -/
def camWeightsML (K : ℕ) (Wt : Weight) (labels : ℕ → ℕ → ℚ) : ℕ → ℕ → ℕ → ℚ :=
  fun i j f => ∑ k ∈ Finset.range K, labelMasks K labels (i * K + j) k * Wt k f

/-- Line 124, `cam_weights.view(c, b, -1, 1, 1)`: a row-major reshape of
the `(B, K, C)` data to `(K, B, C, 1, 1)`.  The trailing `C` stride is
unchanged, so entry `(p, q, f)` reads leading flat position `p*B + q`,
which decodes to pair `((p*B+q) / K, (p*B+q) % K)` of the original. -/
def camWeightsViewKB (B K : ℕ) (Wt : Weight) (labels : ℕ → ℕ → ℚ) :
    ℕ → ℕ → ℕ → ℚ :=
  fun p q f => camWeightsML K Wt labels ((p * B + q) / K) ((p * B + q) % K) f

/-- Lines 124-125 before the final view,
`(cam_weights.view(c, b, -1, 1, 1) * feature_map).mean(2)`: broadcasting
a `(K, B, C, 1, 1)` tensor against the `(B, C, H, W)` feature map gives a
`(K, B, C, H, W)` tensor whose sample index is `q`, and `mean(2)`
averages the `C` feature channels. -/
def camsKB (B K C : ℕ) (Wt : Weight) (F : Tensor4) (labels : ℕ → ℕ → ℚ) :
    ℕ → ℕ → ℕ → ℕ → ℚ :=
  fun p q h w =>
    (∑ f ∈ Finset.range C, camWeightsViewKB B K Wt labels p q f * F q f h w) / (C : ℚ)

/-- Line 125, final `.view(b, c, *feature_map.shape[2:])`: a row-major
reshape of the `(K, B, H, W)` maps back to `(B, K, H, W)`; entry
`(i, j)` reads leading flat position `i*K + j`, decoded in the
`(K, B)` layout as pair `((i*K+j) / B, (i*K+j) % B)`. -/
def camMultiLabel (B K C : ℕ) (Wt : Weight) (F : Tensor4) (labels : ℕ → ℕ → ℚ) :
    ℕ → ℕ → ℕ → ℕ → ℚ :=
  fun i j h w =>
    camsKB B K C Wt F labels ((i * K + j) / B) ((i * K + j) % B) h w

/-! ## `ResNetAdl.forward`, CAM branch (lines 548-553) -/

/-- Lines 549-552: textually the same computation as the multi-class
branch of `ResNetCam.forward` — select weight rows by `labels`,
broadcast-multiply over the final feature map, average the channels. -/
def camAdl (C : ℕ) (Wt : Weight) (F : Tensor4) (labels : ℕ → ℕ) :
    ℕ → ℕ → ℕ → ℚ :=
  fun b h w => (∑ c ∈ Finset.range C, Wt (labels b) c * F b c h w) / (C : ℚ)

/-! ## The CAM branch when `labels` is `None` (claim C10)

`self.fc.weight[labels]` with `labels = None` is PyTorch `W[None]`,
which inserts a singleton leading dimension: a `(1, K, C)` tensor over
the same flat data as the `(K, C)` weight.  The subsequent
`.view(B, C, 1, 1)` succeeds exactly when the element counts
`1*K*C` and `B*C*1*1` agree, and then reinterprets the flat data. -/

/-- Reading flat position `t` of the row-major `(K, C)` weight data. -/
def flatWeight (C : ℕ) (Wt : Weight) : ℕ → ℚ :=
  fun t => Wt (t / C) (t % C)

/-- `self.fc.weight[None].view(B, C, 1, 1)` — `Except.error` models the
PyTorch `RuntimeError` raised when the element counts disagree. -/
def camWeightsNoneView (K C B : ℕ) (Wt : Weight) : Except String (ℕ → ℕ → ℚ) :=
  if 1 * (K * C) = B * C * 1 * 1 then
    Except.ok (fun b c => flatWeight C Wt (b * C + c))
  else
    Except.error "view: shape mismatch"

/-- The whole CAM branch of `ResNetCam.forward` (multi-class) and of
`ResNetAdl.forward` when called with `labels=None`: either the `view`
raises, or a CAM is produced from the reinterpreted weights. -/
def camForwardNoLabels (K C B : ℕ) (Wt : Weight) (F : Tensor4) :
    Except String (ℕ → ℕ → ℕ → ℚ) :=
  (camWeightsNoneView K C B Wt).map
    (fun cw => fun b h w => (∑ c ∈ Finset.range C, cw b c * F b c h w) / (C : ℚ))

/-! ## `ResNetAcol.forward`, CAM branch (lines 351-358) -/

/-- The entries of sample `b` of a `(B, K, H, W)` tensor, flattened. -/
def sampleVals (K H W : ℕ) (T : Tensor4) (b : ℕ) : List ℚ :=
  (List.range K).flatMap fun k =>
    (List.range H).flatMap fun h =>
      (List.range W).map fun w => T b k h w

/-- Minimum of a list of rationals (`0` on the empty list, which never
arises for the nonempty tensors considered below). -/
def listMin : List ℚ → ℚ
  | [] => 0
  | x :: xs => xs.foldl min x

/-- Maximum of a list of rationals (`0` on the empty list). -/
def listMax : List ℚ → ℚ
  | [] => 0
  | x :: xs => xs.foldl max x

/-- Modelled from the spec: `normalize_tensor` is imported from
`wsmol.methods.util`, which is not under `src/`; the spec states
"Normalization: min-max per-sample prior to max-combination", so each
sample of the `(B, K, H, W)` tensor is shifted by its own minimum and
scaled by its own range. -/
def normalize_tensor (K H W : ℕ) (T : Tensor4) : Tensor4 :=
  fun b k h w =>
    (T b k h w - listMin (sampleVals K H W T b)) /
      (listMax (sampleVals K H W T b) - listMin (sampleVals K H W T b))

/-- Lines 352-356: `feature_map = torch.max(normalized_a, normalized_b)`,
the elementwise maximum of the two independently normalized branch maps.
The branch maps `feat_map_a` and `feat_map_b` are produced by
`AcolBase._acol_logits` (not under `src/`) and enter here as inputs. -/
def acolFusedMap (K H W : ℕ) (A Bm : Tensor4) : Tensor4 :=
  fun b k h w =>
    max (normalize_tensor K H W A b k h w) (normalize_tensor K H W Bm b k h w)

/-- Lines 357-358: `cams = feature_map[range(batch_size), labels]`, the
per-sample slice of the fused map at channel `labels b`. -/
def acolCam (K H W : ℕ) (A Bm : Tensor4) (labels : ℕ → ℕ) : ℕ → ℕ → ℕ → ℚ :=
  fun b h w => acolFusedMap K H W A Bm b (labels b) h w

/-! ## `ResNetSpg.forward` (lines 457-495) -/

/-- `torch.argmax` over `K` entries: the index of the first maximal
value (later entries replace the current best only on a strict
increase). -/
def torchArgmax (K : ℕ) (v : ℕ → ℚ) : ℕ :=
  (List.range K).foldl (fun best i => if v i > v best then i else best) 0

/-- Lines 481-482, `logits = self.avgpool(feat_map)` followed by the
view to `(B, K)`: the spatial mean of the `SPG_A4` per-class score
map. -/
def spgLogits (H W : ℕ) (feat : Tensor4) : ℕ → ℕ → ℚ :=
  fun b k =>
    (∑ h ∈ Finset.range H, ∑ w ∈ Finset.range W, feat b k h w) / ((H : ℚ) * (W : ℚ))

/-- Line 484, `labels = logits.argmax(dim=1).long() if labels is None
else labels`: the label vector the rest of the forward pass uses — it
is passed to `spg.compute_attention` (line 485) and selects the CAM
channel (line 491). -/
def spgLabelsUsed (K H W : ℕ) (feat : Tensor4) (labels : Option (ℕ → ℕ)) : ℕ → ℕ :=
  match labels with
  | none => fun b => torchArgmax K (spgLogits H W feat b)
  | some l => l

/-- Lines 489-492, the CAM branch:
`cams = feat_map[range(batch_size), labels]` on the detached `SPG_A4`
score map — sample `b` yields the raw channel `labels b` slice. -/
def spgCam (K H W : ℕ) (feat : Tensor4) (labels : Option (ℕ → ℕ)) :
    ℕ → ℕ → ℕ → ℚ :=
  fun b h w => feat b (spgLabelsUsed K H W feat labels b) h w

/-! ## Factory dispatch (lines 639-673) -/

/-- Tags for the model classes the factories can instantiate; building
the actual networks is out of scope, so a successful dispatch returns
the tag of the class whose constructor Python would call. -/
inductive ModelTag where
  | resNetCam
  | resNetGradCam
  | resNetAcol
  | resNetSpg
  | resNetAdl
  | resNet101GradCam
  | resNet101GCN
  | resNet101ADDGraphCam
  | resNext50GradCam
  | resNext50GCN
  deriving DecidableEq

/-- The constructor dictionary of `resnet50` (lines 641-645). -/
def resnet50Table : List (String × ModelTag) :=
  [("cam", ModelTag.resNetCam), ("grad_cam", ModelTag.resNetGradCam),
   ("acol", ModelTag.resNetAcol), ("spg", ModelTag.resNetSpg),
   ("adl", ModelTag.resNetAdl)]

/-- The constructor dictionary of `resnet101` (lines 654-656). -/
def resnet101Table : List (String × ModelTag) :=
  [("grad_cam", ModelTag.resNet101GradCam), ("graph_cam", ModelTag.resNet101GCN),
   ("addgraph_cam", ModelTag.resNet101ADDGraphCam)]

/-- The constructor dictionary of `resnext50` (lines 666-668). -/
def resnext50Table : List (String × ModelTag) :=
  [("grad_cam", ModelTag.resNext50GradCam), ("graph_cam", ModelTag.resNext50GCN)]

/-- `resnet50(wsol_method, ...)` dispatch (lines 639-649): Python
evaluates the dictionary subscript before calling anything, so an
unregistered key raises `KeyError` with no model built and no tensor
touched. -/
def resnet50 (wsol_method : String) : Except String ModelTag :=
  match resnet50Table.lookup wsol_method with
  | some tag => Except.ok tag
  | none => Except.error "KeyError"

/-- `resnet101(wsol_method, ...)` dispatch (lines 652-661). -/
def resnet101 (wsol_method : String) : Except String ModelTag :=
  match resnet101Table.lookup wsol_method with
  | some tag => Except.ok tag
  | none => Except.error "KeyError"

/-- `resnext50(wsol_method, ...)` dispatch (lines 664-673). -/
def resnext50 (wsol_method : String) : Except String ModelTag :=
  match resnext50Table.lookup wsol_method with
  | some tag => Except.ok tag
  | none => Except.error "KeyError"

/-! ## `load_pretrained` (lines 617-636) -/

/-- The arguments of `load_pretrained` that decide strict versus lenient
loading; `num_classes` is carried along because the claim compares
against the pretrained source's class count (the `model_urls`
checkpoints are ImageNet/ILSVRC models with 1000 classes). -/
structure LoadConfig where
  path : Option String
  dataset_name : String
  wsol_method : String
  num_classes : ℕ
  deriving DecidableEq

/-- Line 631: exactly when this condition holds, `load_pretrained`
removes the `fc` keys from the state dict and sets
`strict_rule = False`. -/
def lenientLoad (cfg : LoadConfig) : Bool :=
  cfg.path.isNone &&
    (cfg.dataset_name != "ILSVRC" ||
      (cfg.wsol_method == "acol" || cfg.wsol_method == "spg"))

/-- `strict_rule` as finally passed to `model.load_state_dict`
(lines 618, 633, 635). -/
def load_pretrained_strict (cfg : LoadConfig) : Bool :=
  !(lenientLoad cfg)

/-- The claim's own words, for comparison: loading is lenient "exactly
when the class count or dataset differs from the pretrained source". -/
def lenientSpec (cfg : LoadConfig) : Prop :=
  cfg.num_classes ≠ 1000 ∨ cfg.dataset_name ≠ "ILSVRC"

/-! ## `align_layer` and ADL insertion (lines 26, 557-561, 585-604) -/

/-- Line 26, `_ADL_POSITION = [[], [], [], [0], [0, 2]]`. -/
def _ADL_POSITION : List (List ℕ) := [[], [], [], [0], [0, 2]]

/-- Lines 588-599 of `align_layer`: the `move` counter — scan the ADL
positions of the key's layer in reverse and count those strictly below
the block index. -/
def alignMove (layerIdx blockIdx : ℕ) : ℕ :=
  ((_ADL_POSITION.getD layerIdx []).reverse).foldl
    (fun move pos => if pos < blockIdx then move + 1 else move) 0

/-- A state-dict key, pre-split at the dots as `key.split('.')` does on
line 591: `layer L B rest` stands for a key whose first component is
`layer` followed by the digit `L` and whose second component is the
block index `B`; `plain` stands for a key in which the substring
`layer` does not occur (line 589 skips those). -/
inductive SDKey where
  | layer (layerIdx blockIdx : ℕ) (rest : List String)
  | plain (name : String)
  deriving DecidableEq

/-- The per-key rewriting performed by `align_layer` (lines 585-604):
keys without `layer` and keys of a layer with an empty position list
are left unchanged (the two `continue`s); every other key has its block
index shifted by `move`. -/
def align_key : SDKey → SDKey
  | SDKey.plain n => SDKey.plain n
  | SDKey.layer L B rest =>
      if _ADL_POSITION.getD L [] = [] then SDKey.layer L B rest
      else SDKey.layer L (B + alignMove L B) rest

/-- `ResNetAdl._make_layer` (lines 557-561): after building the list of
residual blocks, `for pos in reversed(split): layers.insert(pos + 1,
ADL(...))` splices an ADL module after each listed position. -/
def adlInsert {α : Type} (split : List ℕ) (adl : α) (blocks : List α) : List α :=
  split.reverse.foldl (fun ls pos => ls.insertIdx (pos + 1) adl) blocks

/-! ## Helper lemmas -/

/-- Decoding the row-major pair `(i, j)` from flat position `i*K + j`:
the quotient. -/
theorem flatPair_div {K : ℕ} (i : ℕ) {j : ℕ} (hj : j < K) :
    (i * K + j) / K = i := by
  have hK : 0 < K := Nat.pos_of_ne_zero (by omega)
  rw [Nat.mul_comm, Nat.mul_add_div hK, Nat.div_eq_of_lt hj, Nat.add_zero]

/-- Decoding the row-major pair `(i, j)` from flat position `i*K + j`:
the remainder. -/
theorem flatPair_mod {K : ℕ} (i : ℕ) {j : ℕ} (hj : j < K) :
    (i * K + j) % K = j := by
  rw [Nat.mul_comm, Nat.mul_add_mod, Nat.mod_eq_of_lt hj]

/-! ## C1 — plain multi-class CAM closed form -/

/-- C1: for `ResNetCam` with `classif_type = "multi_class"`, the CAM of
sample `b` is the channel-wise mean of the feature map weighted by
classifier row `W[labels b]`; on an all-ones feature map every pixel
equals the mean of that weight row exactly. -/
theorem camMultiClass_spec (C : ℕ) (Wt : Weight) (F : Tensor4) (labels : ℕ → ℕ) :
    (∀ b h w, camMultiClass C Wt F labels b h w
        = (∑ c ∈ Finset.range C, Wt (labels b) c * F b c h w) / (C : ℚ)) ∧
    (∀ b h w, (∀ c h' w', c < C → F b c h' w' = 1) →
        camMultiClass C Wt F labels b h w
          = (∑ c ∈ Finset.range C, Wt (labels b) c) / (C : ℚ)) := by
  refine ⟨fun b h w => rfl, fun b h w hF => ?_⟩
  unfold camMultiClass camWeightsSel
  congr 1
  exact Finset.sum_congr rfl fun c hc => by
    rw [hF c h w (Finset.mem_range.1 hc), mul_one]

/-- Witness for C1: an all-ones `(1, 2, 1, 1)` feature map and the
constant weight row `(3, 3)` produce the CAM value `3`, the mean of the
row. -/
theorem camMultiClass_spec_witness :
    camMultiClass 2 (fun _ _ => 3) (fun _ _ _ _ => 1) (fun _ => 0) 0 0 0 = 3 := by
  have h := (camMultiClass_spec 2 (fun _ _ => 3) (fun _ _ _ _ => 1) (fun _ => 0)).2
    0 0 0 (fun _ _ _ _ => rfl)
  rw [h]
  norm_num [Finset.sum_range_succ]

/-! ## C5 — the ADL CAM is the plain-CAM formula -/

/-- C5: `ResNetAdl.forward` computes its CAM with exactly the formula of
the multi-class branch of `ResNetCam.forward`: on equal feature maps,
equal `fc` weights and equal labels the two computations return equal
values everywhere. -/
theorem camAdl_eq_camMultiClass (C : ℕ) (Wt : Weight) (F : Tensor4)
    (labels : ℕ → ℕ) (b h w : ℕ) :
    camAdl C Wt F labels b h w = camMultiClass C Wt F labels b h w := rfl

/-! ## C9 — the SPG CAM is the raw label-channel slice -/

/-- C9: the CAM `ResNetSpg.forward` returns with `return_cam=True` is
the raw label-channel slice of the `SPG_A4` score map — for every
sample `b` it equals `feat_map b (labels b)` pointwise, with no
normalization applied; a raw score of `7` is returned as `7`. -/
theorem spgCam_raw_slice :
    (∀ K H W feat (labels : ℕ → ℕ) b h w,
        spgCam K H W feat (some labels) b h w = feat b (labels b) h w) ∧
    (∀ K H W feat labelsOpt b h w,
        spgCam K H W feat labelsOpt b h w
          = feat b (spgLabelsUsed K H W feat labelsOpt b) h w) ∧
    spgCam 1 1 1 (fun _ _ _ _ => 7) (some fun _ => 0) 0 0 0 = 7 :=
  ⟨fun _ _ _ _ _ _ _ _ => rfl, fun _ _ _ _ _ _ _ _ => rfl, rfl⟩

/-! ## C4 — SPG implicit self-labeling -/

/-- C4: when `ResNetSpg.forward` is called with `labels=None`, the label
vector used both for `spg.compute_attention` and for the CAM slice is
the per-sample argmax of the pooled `SPG_A4` logits; a supplied label
vector is used unchanged; and the two modes genuinely differ — on a
concrete input, supplying a non-argmax ground-truth label changes the
returned CAM. -/
theorem spgLabelsUsed_spec :
    (∀ K H W feat b, spgLabelsUsed K H W feat none b
        = torchArgmax K (spgLogits H W feat b)) ∧
    (∀ K H W feat (l : ℕ → ℕ), spgLabelsUsed K H W feat (some l) = l) ∧
    (∀ K H W feat labelsOpt b h w,
        spgCam K H W feat labelsOpt b h w
          = feat b (spgLabelsUsed K H W feat labelsOpt b) h w) ∧
    spgCam 2 1 1 (fun _ k _ _ => if k = 0 then 1 else 0) (some fun _ => 1) 0 0 0
      ≠ spgCam 2 1 1 (fun _ k _ _ => if k = 0 then 1 else 0) none 0 0 0 := by
  refine ⟨fun _ _ _ _ _ => rfl, fun _ _ _ _ _ => rfl, fun _ _ _ _ _ _ _ _ => rfl, ?_⟩
  have hargmax : torchArgmax 2 (spgLogits 1 1 (fun _ k _ _ => if k = 0 then (1:ℚ) else 0) 0) = 0 := by
    norm_num [torchArgmax, spgLogits, List.range_succ, Finset.sum_range_succ]
  simp only [spgCam, spgLabelsUsed, hargmax]
  norm_num

/-! ## C6 — fail-fast on unknown method names -/

/-- C6: calling `resnet50`, `resnet101` or `resnext50` with a
`wsol_method` string that is not a key of its constructor dictionary
errors during dispatch, before any constructor runs. -/
theorem factory_unknown_method_error (m : String) :
    (m ∉ ["cam", "grad_cam", "acol", "spg", "adl"] →
        resnet50 m = Except.error "KeyError") ∧
    (m ∉ ["grad_cam", "graph_cam", "addgraph_cam"] →
        resnet101 m = Except.error "KeyError") ∧
    (m ∉ ["grad_cam", "graph_cam"] →
        resnext50 m = Except.error "KeyError") := by
  refine ⟨fun h => ?_, fun h => ?_, fun h => ?_⟩ <;>
    simp only [List.mem_cons, List.not_mem_nil, not_or, or_false] at h
  · unfold resnet50 resnet50Table
    simp [List.lookup, beq_eq_false_iff_ne.mpr h.1, beq_eq_false_iff_ne.mpr h.2.1,
      beq_eq_false_iff_ne.mpr h.2.2.1, beq_eq_false_iff_ne.mpr h.2.2.2.1,
      beq_eq_false_iff_ne.mpr h.2.2.2.2]
  · unfold resnet101 resnet101Table
    simp [List.lookup, beq_eq_false_iff_ne.mpr h.1, beq_eq_false_iff_ne.mpr h.2.1,
      beq_eq_false_iff_ne.mpr h.2.2]
  · unfold resnext50 resnext50Table
    simp [List.lookup, beq_eq_false_iff_ne.mpr h.1, beq_eq_false_iff_ne.mpr h.2]

/-- Witness for C6: `graph_cam` is not registered for `resnet50`, `cam`
is not registered for `resnet101`, `adl` is not registered for
`resnext50`; all three dispatches return the error. -/
theorem factory_unknown_method_error_witness :
    resnet50 "graph_cam" = Except.error "KeyError" ∧
    resnet101 "cam" = Except.error "KeyError" ∧
    resnext50 "adl" = Except.error "KeyError" :=
  ⟨(factory_unknown_method_error "graph_cam").1 (by decide),
   (factory_unknown_method_error "cam").2.1 (by decide),
   (factory_unknown_method_error "adl").2.2 (by decide)⟩

/-! ## C7 — lenient checkpoint loading condition -/

/-- Counterexample to C7 as stated: with an explicit checkpoint path and
`dataset_name = "CUB"`, `num_classes = 200`, the dataset (and the class
count) differs from the pretrained source, yet line 631 keeps
`strict_rule = True` because a path was given — leniency is not
equivalent to "class count or dataset differs". -/
theorem load_pretrained_lenient_cex :
    ¬ ((lenientLoad ⟨some "ckpt.pth", "CUB", "cam", 200⟩ = true) ↔
        lenientSpec ⟨some "ckpt.pth", "CUB", "cam", 200⟩) := by
  intro h
  have : lenientLoad ⟨some "ckpt.pth", "CUB", "cam", 200⟩ = true :=
    h.mpr (Or.inl (by norm_num))
  simp [lenientLoad] at this

/-- C7 amended: `load_pretrained` is lenient (removes the `fc` keys and
loads non-strictly) exactly when no explicit checkpoint path is given
and moreover the dataset is not `ILSVRC` or the method is `acol` or
`spg`; in every other case `strict_rule` stays `True`. -/
theorem lenientLoad_iff (cfg : LoadConfig) :
    (lenientLoad cfg = true ↔
      (cfg.path = none ∧ (cfg.dataset_name ≠ "ILSVRC" ∨
        cfg.wsol_method = "acol" ∨ cfg.wsol_method = "spg"))) ∧
    (load_pretrained_strict cfg = true ↔
      ¬ (cfg.path = none ∧ (cfg.dataset_name ≠ "ILSVRC" ∨
        cfg.wsol_method = "acol" ∨ cfg.wsol_method = "spg"))) := by
  have h1 : lenientLoad cfg = true ↔
      (cfg.path = none ∧ (cfg.dataset_name ≠ "ILSVRC" ∨
        cfg.wsol_method = "acol" ∨ cfg.wsol_method = "spg")) := by
    unfold lenientLoad
    simp [Option.isNone_iff_eq_none, or_assoc]
  refine ⟨h1, ?_⟩
  unfold load_pretrained_strict
  rw [Bool.not_eq_true', ← Bool.not_eq_true]
  exact not_congr h1

/-! ## C2 — multi-label CAM mask semantics -/

/-- The matrix product of lines 122-123 collapses: entry `(i, j, f)` of
`cam_weights` is `labels i j * Wt j f`. -/
theorem camWeightsML_apply (K : ℕ) (Wt : Weight) (labels : ℕ → ℕ → ℚ)
    (i j f : ℕ) (hj : j < K) :
    camWeightsML K Wt labels i j f = labels i j * Wt j f := by
  unfold camWeightsML labelMasks repeatInterleave eyeRepeat
  rw [Finset.sum_eq_single_of_mem j (Finset.mem_range.2 hj)]
  · rw [flatPair_div i hj, flatPair_mod i hj, if_pos rfl, mul_one]
  · intro k _ hk
    rw [flatPair_mod i hj, if_neg (fun hjk => hk hjk.symm), mul_zero, zero_mul]

/-- The multi-label CAM of lines 115-125 in closed form: the two
reshapes compose so that output entry `(i, j)` carries the mask factor
`labels i j` and the weight row `Wt j`, but reads the feature map of
sample `(i*K + j) % B` rather than sample `i`. -/
theorem camMultiLabel_apply (B K C : ℕ) (Wt : Weight) (F : Tensor4)
    (labels : ℕ → ℕ → ℚ) (i j h w : ℕ) (hj : j < K) :
    camMultiLabel B K C Wt F labels i j h w
      = labels i j *
        ((∑ f ∈ Finset.range C, Wt j f * F ((i * K + j) % B) f h w) / (C : ℚ)) := by
  unfold camMultiLabel camsKB camWeightsViewKB
  rw [Nat.div_add_mod' (i * K + j) B]
  rw [Finset.sum_congr rfl fun f _ => by
    rw [flatPair_div i hj, flatPair_mod i hj,
      camWeightsML_apply K Wt labels i j f hj, mul_assoc]]
  rw [← Finset.mul_sum, mul_div_assoc]

/-- Counterexample to C2 as stated: batch size `B = 2`, `num_classes
K = 2`, one feature channel, one pixel; every label mask is `1`, the
weight matrix is row `j = 1` equal to `1` (row `0` zero), and the
feature maps of the two samples are `5` (sample 0) and `0` (sample 1).
The claim demands that the map at `(b, j) = (0, 1)` equal the
channel-wise `W[1]`-weighted mean of sample 0's feature map, which is
`5`; the code returns `0` because the `(B, K, C) → (K, B, C)` reshape
of line 124 makes that output entry read the feature map of sample
`(0*2 + 1) % 2 = 1`. -/
theorem camMultiLabel_cex :
    camMultiLabel 2 2 1 (fun j _ => if j = 1 then 1 else 0)
        (fun b _ _ _ => if b = 0 then 5 else 0) (fun _ _ => 1) 0 1 0 0 = 0 ∧
    (∑ _f ∈ Finset.range 1, (if 1 = 1 then (1:ℚ) else 0) *
        (if 0 = 0 then (5:ℚ) else 0)) / (1 : ℚ) = 5 := by
  constructor
  · rw [camMultiLabel_apply 2 2 1 _ _ _ 0 1 0 0 (by norm_num)]
    norm_num [Finset.sum_range_succ]
  · norm_num

/-- C2 amended: for every batch size `B`, output position `(b, j)` is
the all-zero map whenever `labels b j = 0` (zero-masked classes
contribute zero weight and the result stays addressable by class
index), and whenever `labels b j = 1` it is the channel-wise mean of
the feature map of sample `(b*K + j) % B` weighted by classifier row
`W[j]` — which is sample `b`'s own feature map exactly in the case
`B = 1` (so the claim holds as stated for single-sample batches), but
in general a reshuffled sample. -/
theorem camMultiLabel_spec (B K C : ℕ) (Wt : Weight) (F : Tensor4)
    (labels : ℕ → ℕ → ℚ) (i j h w : ℕ) (hj : j < K) :
    (labels i j = 0 → camMultiLabel B K C Wt F labels i j h w = 0) ∧
    (labels i j = 1 → camMultiLabel B K C Wt F labels i j h w
        = (∑ f ∈ Finset.range C, Wt j f * F ((i * K + j) % B) f h w) / (C : ℚ)) ∧
    (labels i j = 1 → B = 1 → i = 0 → camMultiLabel B K C Wt F labels i j h w
        = (∑ f ∈ Finset.range C, Wt j f * F i f h w) / (C : ℚ)) := by
  refine ⟨fun h0 => ?_, fun h1 => ?_, fun h1 hB hi => ?_⟩
  · rw [camMultiLabel_apply B K C Wt F labels i j h w hj, h0, zero_mul]
  · rw [camMultiLabel_apply B K C Wt F labels i j h w hj, h1, one_mul]
  · rw [camMultiLabel_apply B K C Wt F labels i j h w hj, h1, one_mul,
      hB, Nat.mod_one, hi]

/-- Witness for C2 (amended): with `B = 2`, `K = 2`, `C = 1`, constant
weight `2` and feature value `3` for both samples, a zero-masked class
yields `0` and a one-masked class yields `(2*3)/1 = 6`; with `B = 1`
the one-masked class reads sample 0's own map. -/
theorem camMultiLabel_spec_witness :
    camMultiLabel 2 2 1 (fun _ _ => 2) (fun _ _ _ _ => 3)
        (fun b j => if b = 0 ∧ j = 0 then 0 else 1) 0 0 0 0 = 0 ∧
    camMultiLabel 2 2 1 (fun _ _ => 2) (fun _ _ _ _ => 3)
        (fun b j => if b = 0 ∧ j = 0 then 0 else 1) 0 1 0 0 = 6 ∧
    camMultiLabel 1 2 1 (fun _ _ => 2) (fun _ _ _ _ => 3) (fun _ _ => 1) 0 1 0 0 = 6 := by
  refine ⟨?_, ?_, ?_⟩
  · rw [(camMultiLabel_spec 2 2 1 (fun _ _ => 2) (fun _ _ _ _ => 3)
        (fun b j => if b = 0 ∧ j = 0 then 0 else 1) 0 0 0 0 (by norm_num)).1
        (by norm_num)]
  · rw [(camMultiLabel_spec 2 2 1 (fun _ _ => 2) (fun _ _ _ _ => 3)
        (fun b j => if b = 0 ∧ j = 0 then 0 else 1) 0 1 0 0 (by norm_num)).2.1
        (by norm_num)]
    norm_num [Finset.sum_range_succ]
  · rw [(camMultiLabel_spec 1 2 1 (fun _ _ => 2) (fun _ _ _ _ => 3)
        (fun _ _ => 1) 0 1 0 0 (by norm_num)).2.2 rfl rfl rfl]
    norm_num [Finset.sum_range_succ]

/-! ## C10 — `labels=None` in the `ResNetCam`/`ResNetAdl` CAM branch -/

/-- Counterexample to C10 as stated: the claim says the call fails for
every input, but with batch size equal to `num_classes` (here both 2,
one channel) the element counts `1*K*C` and `B*C` coincide, the `view`
succeeds, and a CAM is returned. -/
theorem camForwardNoLabels_cex :
    (camForwardNoLabels 2 1 2 (fun _ _ => 1) (fun _ _ _ _ => 1)).isOk = true := rfl

/-- C10 amended: indexing `fc.weight` with `None` prepends a singleton
dimension, so the subsequent `view` — and with it the whole call —
fails exactly when the batch size differs from `num_classes`; when they
coincide the call does not fail but returns the CAM computed from
weight row `b` for sample `b` (channel-mean of `W[b] * F[b]`), which is
not a per-sample argmax selection. -/
theorem camForwardNoLabels_spec (K C B : ℕ) (Wt : Weight) (F : Tensor4)
    (hC : 0 < C) :
    (B ≠ K → camForwardNoLabels K C B Wt F = Except.error "view: shape mismatch") ∧
    (B = K → camForwardNoLabels K C B Wt F
        = Except.ok (fun b h w =>
            (∑ c ∈ Finset.range C, Wt b c * F b c h w) / (C : ℚ))) := by
  constructor
  · intro hBK
    unfold camForwardNoLabels camWeightsNoneView
    rw [if_neg]
    · rfl
    · intro hmul
      exact hBK (Nat.eq_of_mul_eq_mul_right hC (by omega)).symm
  · intro hBK
    subst hBK
    unfold camForwardNoLabels camWeightsNoneView flatWeight
    rw [if_pos (by ring)]
    unfold Except.map
    have hsum : ∀ b h w : ℕ,
        (∑ c ∈ Finset.range C, Wt ((b * C + c) / C) ((b * C + c) % C) * F b c h w)
          = ∑ c ∈ Finset.range C, Wt b c * F b c h w := fun b h w =>
      Finset.sum_congr rfl fun c hc => by
        rw [flatPair_div b (Finset.mem_range.1 hc), flatPair_mod b (Finset.mem_range.1 hc)]
    refine congrArg Except.ok (funext fun b => funext fun h => funext fun w => ?_)
    show (∑ c ∈ Finset.range C, Wt ((b * C + c) / C) ((b * C + c) % C) * F b c h w) / (C : ℚ)
        = (∑ c ∈ Finset.range C, Wt b c * F b c h w) / (C : ℚ)
    rw [hsum b h w]

/-- Witness for C10 (amended): with `K = 2` classes, one channel and
batch size `1 ≠ 2` the call errors; with batch size `2 = K` it returns
the row-`b` CAM. -/
theorem camForwardNoLabels_spec_witness :
    camForwardNoLabels 2 1 1 (fun _ _ => 1) (fun _ _ _ _ => 1)
      = Except.error "view: shape mismatch" ∧
    camForwardNoLabels 2 1 2 (fun _ _ => 1) (fun _ _ _ _ => 1)
      = Except.ok (fun b h w =>
          (∑ c ∈ Finset.range 1,
            (fun (_ _ : ℕ) => (1:ℚ)) b c * (fun (_ _ _ _ : ℕ) => (1:ℚ)) b c h w) / (1 : ℚ)) :=
  ⟨(camForwardNoLabels_spec 2 1 1 (fun _ _ => 1) (fun _ _ _ _ => 1) (by norm_num)).1
      (by norm_num),
   (camForwardNoLabels_spec 2 1 2 (fun _ _ => 1) (fun _ _ _ _ => 1) (by norm_num)).2 rfl⟩

/-! ## C3 — ACoL fused CAM -/

/-- C3: the ACoL CAM is, per sample and pixel, the elementwise maximum
of the two branch maps after each branch has been independently min-max
normalized per sample, restricted to channel `labels b`; and the order
matters — on a concrete pair of branch maps, normalizing each branch
before the maximum differs from normalizing the elementwise maximum. -/
theorem acolCam_normalize_before_max :
    (∀ K H W A Bm (labels : ℕ → ℕ) b h w,
        acolCam K H W A Bm labels b h w
          = max (normalize_tensor K H W A b (labels b) h w)
                (normalize_tensor K H W Bm b (labels b) h w)) ∧
    acolCam 1 2 1 (fun _ _ h _ => if h = 0 then 0 else 4)
        (fun _ _ h _ => if h = 0 then 3 else 1) (fun _ => 0) 0 0 0
      ≠ normalize_tensor 1 2 1
          (fun b k h w =>
            max ((fun _ _ h _ => if h = 0 then (0:ℚ) else 4) b k h w)
                ((fun _ _ h _ => if h = 0 then (3:ℚ) else 1) b k h w))
          0 0 0 0 := by
  refine ⟨fun _ _ _ _ _ _ _ _ _ => rfl, ?_⟩
  norm_num [acolCam, acolFusedMap, normalize_tensor, sampleVals, listMin, listMax,
    List.range_succ, min_def, max_def]

/-! ## C8 — ADL checkpoint key remapping -/

/-- Entries strictly before the insertion point are unmoved by
`List.insertIdx`. -/
theorem getElem?_insertIdx_of_lt {α : Type} (l : List α) (x : α) (n k : ℕ)
    (h : k < n) : (List.insertIdx n x l)[k]? = l[k]? := by
  induction n generalizing l k with
  | zero => omega
  | succ n ih =>
    cases l with
    | nil => rw [List.insertIdx_succ_nil]
    | cons a l =>
      rw [List.insertIdx_succ_cons]
      cases k with
      | zero => simp
      | succ k => simpa using ih l k (by omega)

/-- Entries at or after the insertion point are shifted up by one by
`List.insertIdx` (when the insertion point is within the list). -/
theorem getElem?_insertIdx_add_one {α : Type} (l : List α) (x : α) (n k : ℕ)
    (hn : n ≤ k) (hl : n ≤ l.length) :
    (List.insertIdx n x l)[k + 1]? = l[k]? := by
  induction n generalizing l k with
  | zero =>
    rw [List.insertIdx_zero]
    simp
  | succ n ih =>
    cases l with
    | nil => simp at hl
    | cons a l =>
      rw [List.insertIdx_succ_cons]
      cases k with
      | zero => omega
      | succ k =>
        simp only [List.getElem?_cons_succ]
        exact ih l k (by omega) (by simpa using hl)

/-- The reverse-scan counter of `align_layer` is a `countP`. -/
theorem foldl_count_lt (B : ℕ) (l : List ℕ) (s : ℕ) :
    l.foldl (fun move pos => if pos < B then move + 1 else move) s
      = s + l.countP (fun pos => decide (pos < B)) := by
  induction l generalizing s with
  | nil => simp
  | cons a l ih =>
    by_cases h : a < B
    · simp [List.countP_cons, h, ih]
      omega
    · simp [List.countP_cons, h, ih]

/-- `move` counts the ADL positions of the layer strictly below the
block index (the reverse iteration order of lines 597-599 does not
change the count). -/
theorem alignMove_eq_countP (L B : ℕ) :
    alignMove L B = (_ADL_POSITION.getD L []).countP (fun pos => decide (pos < B)) := by
  unfold alignMove
  rw [foldl_count_lt, List.countP_reverse, Nat.zero_add]

/-- C8: `align_layer` rewrites the key `layer L . B . rest` to block
index `B` plus the number of positions in `_ADL_POSITION[L]` strictly
below `B`, leaves every other key unchanged, and this shift equals the
displacement produced by `ResNetAdl._make_layer`: after the ADL
insertions, the remapped index addresses exactly the block that sat at
index `i` before insertion — for layer 3 (positions `[0]`), for layer 4
(positions `[0, 2]`, with its at-least-three residual blocks), and for
the layers with no ADL positions, where both sides are untouched. -/
theorem align_layer_matches_adl_insertion :
    (∀ L B rest, align_key (SDKey.layer L B rest)
        = SDKey.layer L
            (B + (_ADL_POSITION.getD L []).countP (fun pos => decide (pos < B))) rest) ∧
    (∀ n, align_key (SDKey.plain n) = SDKey.plain n) ∧
    (∀ (α : Type) (adl : α) (blocks : List α) (i : ℕ), i < blocks.length →
        (adlInsert (_ADL_POSITION.getD 3 []) adl blocks)[i + alignMove 3 i]?
          = blocks[i]?) ∧
    (∀ (α : Type) (adl : α) (blocks : List α) (i : ℕ),
        i < blocks.length → 3 ≤ blocks.length →
        (adlInsert (_ADL_POSITION.getD 4 []) adl blocks)[i + alignMove 4 i]?
          = blocks[i]?) ∧
    (∀ (α : Type) (adl : α) (blocks : List α) (L : ℕ),
        _ADL_POSITION.getD L [] = [] →
        adlInsert (_ADL_POSITION.getD L []) adl blocks = blocks ∧
        ∀ B rest, align_key (SDKey.layer L B rest) = SDKey.layer L B rest) := by
  refine ⟨fun L B rest => ?_, fun n => rfl, fun α adl blocks i hi => ?_,
    fun α adl blocks i hi hlen => ?_, fun α adl blocks L hL => ?_⟩
  · have hak : align_key (SDKey.layer L B rest)
        = if _ADL_POSITION.getD L [] = [] then SDKey.layer L B rest
          else SDKey.layer L (B + alignMove L B) rest := rfl
    rw [hak]
    by_cases hL : _ADL_POSITION.getD L [] = []
    · rw [if_pos hL, hL]
      simp
    · rw [if_neg hL, alignMove_eq_countP]
  · show (blocks.insertIdx 1 adl)[i + alignMove 3 i]? = blocks[i]?
    cases i with
    | zero =>
      show (blocks.insertIdx 1 adl)[0]? = blocks[0]?
      exact getElem?_insertIdx_of_lt blocks adl 1 0 (by omega)
    | succ k =>
      have hm : alignMove 3 (k + 1) = 1 := by
        simp [alignMove, _ADL_POSITION]
      rw [hm]
      exact getElem?_insertIdx_add_one blocks adl 1 (k + 1) (by omega) (by omega)
  · show ((blocks.insertIdx 3 adl).insertIdx 1 adl)[i + alignMove 4 i]? = blocks[i]?
    have hlen3 : (blocks.insertIdx 3 adl).length = blocks.length + 1 :=
      List.length_insertIdx 3 blocks hlen
    rcases Nat.lt_or_ge i 3 with hlt | hge
    · interval_cases i
      · show ((blocks.insertIdx 3 adl).insertIdx 1 adl)[0]? = blocks[0]?
        rw [getElem?_insertIdx_of_lt _ adl 1 0 (by omega)]
        exact getElem?_insertIdx_of_lt blocks adl 3 0 (by omega)
      · show ((blocks.insertIdx 3 adl).insertIdx 1 adl)[1 + 1]? = blocks[1]?
        rw [getElem?_insertIdx_add_one _ adl 1 1 (by omega) (by omega)]
        exact getElem?_insertIdx_of_lt blocks adl 3 1 (by omega)
      · show ((blocks.insertIdx 3 adl).insertIdx 1 adl)[2 + 1]? = blocks[2]?
        rw [getElem?_insertIdx_add_one _ adl 1 2 (by omega) (by omega)]
        exact getElem?_insertIdx_of_lt blocks adl 3 2 (by omega)
    · obtain ⟨k, rfl⟩ : ∃ k, i = k + 3 := ⟨i - 3, by omega⟩
      have hm : alignMove 4 (k + 3) = 2 := by
        simp [alignMove, _ADL_POSITION]
      rw [hm]
      have hidx : k + 3 + 2 = (k + 4) + 1 := by omega
      rw [hidx, getElem?_insertIdx_add_one _ adl 1 (k + 4) (by omega) (by omega)]
      have hidx2 : k + 4 = (k + 3) + 1 := by omega
      rw [hidx2, getElem?_insertIdx_add_one blocks adl 3 (k + 3) (by omega) (by omega)]
  · refine ⟨?_, fun B rest => ?_⟩
    · rw [hL]
      rfl
    · have hak : align_key (SDKey.layer L B rest)
          = if _ADL_POSITION.getD L [] = [] then SDKey.layer L B rest
            else SDKey.layer L (B + alignMove L B) rest := rfl
      rw [hak, if_pos hL]

/-- Witness for C8: on the three-block list `[10, 20, 30]`, layer-3
insertion maps original index 1 to position 2 (value `20`), layer-4
insertion maps original index 2 to position 3 (value `30`), and a layer
with no ADL positions leaves the blocks untouched. -/
theorem align_layer_matches_adl_insertion_witness :
    (adlInsert (_ADL_POSITION.getD 3 []) 99 [10, 20, 30])[1 + alignMove 3 1]?
      = some 20 ∧
    (adlInsert (_ADL_POSITION.getD 4 []) 99 [10, 20, 30])[2 + alignMove 4 2]?
      = some 30 ∧
    adlInsert (_ADL_POSITION.getD 1 []) 99 [10, 20, 30] = [10, 20, 30] := by
  refine ⟨?_, ?_, ?_⟩
  · rw [align_layer_matches_adl_insertion.2.2.1 ℕ 99 [10, 20, 30] 1 (by norm_num)]
    rfl
  · rw [align_layer_matches_adl_insertion.2.2.2.1 ℕ 99 [10, 20, 30] 2
      (by norm_num) (by norm_num)]
    rfl
  · exact (align_layer_matches_adl_insertion.2.2.2.2 ℕ 99 [10, 20, 30] 1 rfl).1

end Wsmol
